import Mathlib

/-!
Verification of the FunPy source-to-source transformation pipeline
(algebraic data types, pattern matching, tail-call optimization).

The repository ships only packaging metadata under src/ (setup.py); the
packages funpy.adt, funpy.pattern and funpy.tco named there are not in the
source tree, so every definition below is modelled from the natural
language specification of the pipeline.
-/

set_option linter.unusedVariables false

namespace FunPy

/-- Modelled from the spec: runtime values of the dynamically typed host
language. The packages funpy.adt / funpy.pattern are missing from src/;
per the data model a VariantValue is a tagId together with an ordered
sequence of arbitrary values. -/
inductive Value where
  | vint : Int → Value
  | vstr : String → Value
  | variant : Nat → List Value → Value

mutual

/-- Structural equality test on host values (the host compares values for
literal patterns). -/
def valueEq : Value → Value → Bool
  | .vint a, .vint b => a == b
  | .vstr a, .vstr b => a == b
  | .variant t fs, .variant u gs => t == u && valueListEq fs gs
  | _, _ => false

/-- Pointwise structural equality on ordered field sequences. -/
def valueListEq : List Value → List Value → Bool
  | [], [] => true
  | a :: as2, b :: bs => valueEq a b && valueListEq as2 bs
  | _, _ => false

end

/-- Modelled from the spec: a ConstructorSpec is a name, a non-negative
arity and a tagId assigned in declaration order, zero-based. -/
structure ConstructorSpec where
  name : String
  arity : Nat
  tagId : Nat
deriving DecidableEq

/-- Modelled from the spec: a VariantSpec is a type name with an ordered
sequence of constructor specs. -/
structure VariantSpec where
  typeName : String
  constructors : List ConstructorSpec
deriving DecidableEq

/-- Modelled from the spec: tagIds are assigned in declaration order,
stable and zero-based. -/
def assignTags : Nat → List (String × Nat) → List ConstructorSpec
  | _, [] => []
  | i, (nm, a) :: rest => ⟨nm, a, i⟩ :: assignTags (i + 1) rest

/-- Modelled from the spec: compiling an ADT declaration produces a
VariantSpec whose constructors carry declaration-order tagIds. -/
def mkVariantSpec (name : String) (ctors : List (String × Nat)) : VariantSpec :=
  ⟨name, assignTags 0 ctors⟩

/-- Modelled from the spec: runtime error taxonomy of the variant
runtime (construction-time and field-access checks). -/
inductive RuntimeError where
  | ArityMismatch
  | FieldIndexOutOfRange
  | UnknownTag
deriving DecidableEq

/-- Look up a constructor spec by its tagId; with declaration-order tags
this is positional lookup. -/
def findCtorByTag (spec : VariantSpec) (t : Nat) : Option ConstructorSpec :=
  spec.constructors.find? (fun c => c.tagId == t)

/-- Look up a constructor spec by name. -/
def findCtorByName (spec : VariantSpec) (nm : String) : Option ConstructorSpec :=
  spec.constructors.find? (fun c => c.name == nm)

/-- Modelled from the spec: given a tagId and ordered field values,
produce a VariantValue; fails with ArityMismatch when the field count
disagrees with the declared arity (checked, never truncated or padded). -/
def construct (spec : VariantSpec) (tag : Nat) (fields : List Value) :
    Except RuntimeError Value :=
  match findCtorByTag spec tag with
  | none => .error .UnknownTag
  | some c =>
    if fields.length = c.arity then .ok (.variant tag fields)
    else .error .ArityMismatch

/-- Modelled from the spec: a VariantValue exposes its tagId. -/
def getTag : Value → Option Nat
  | .variant t _ => some t
  | _ => none

/-- Modelled from the spec: ordered field accessor; fails with
FieldIndexOutOfRange when the index is at least the declared arity of the
value's actual tag. -/
def fieldAccess (spec : VariantSpec) (v : Value) (i : Nat) :
    Except RuntimeError Value :=
  match v with
  | .variant t fs =>
    match findCtorByTag spec t with
    | none => .error .UnknownTag
    | some c =>
      if i < c.arity then
        match fs.get? i with
        | some x => .ok x
        | none => .error .FieldIndexOutOfRange
      else .error .FieldIndexOutOfRange
  | _ => .error .UnknownTag

/-- Modelled from the spec: compile-time patterns — wildcard, variable,
literal, constructor application, and or-patterns. -/
inductive Pattern where
  | wildcard : Pattern
  | var : String → Pattern
  | lit : Value → Pattern
  | ctor : String → List Pattern → Pattern
  | orp : List Pattern → Pattern

/-- Variable bindings produced by a structural match. -/
abbrev Bindings : Type := List (String × Value)

mutual

/-- Modelled from the spec: structural matching of one pattern against a
runtime value, producing the bound variables on success. Wildcards and
variables match everything; literals compare by value; constructor
patterns require the value's tag to equal the named constructor's tagId
and every sub-pattern to match the corresponding field; an or-pattern
matches when some alternative matches (first one wins for bindings). -/
def matchPat (spec : VariantSpec) : Pattern → Value → Option Bindings
  | .wildcard, _ => some []
  | .var nm, v => some [(nm, v)]
  | .lit l, v => if valueEq l v then some [] else none
  | .ctor nm subs, .variant t fs =>
    (match findCtorByName spec nm with
     | some c => if c.tagId = t then matchPats spec subs fs else none
     | none => none)
  | .ctor _ _, _ => none
  | .orp alts, v => matchOrFirst spec alts v

/-- Pointwise matching of sub-patterns against field values. -/
def matchPats (spec : VariantSpec) : List Pattern → List Value → Option Bindings
  | [], [] => some []
  | p :: ps, v :: vs =>
    (match matchPat spec p v, matchPats spec ps vs with
     | some b1, some b2 => some (b1 ++ b2)
     | _, _ => none)
  | _, _ => none

/-- First alternative of an or-pattern that matches. -/
def matchOrFirst (spec : VariantSpec) : List Pattern → Value → Option Bindings
  | [], _ => none
  | p :: ps, v =>
    (match matchPat spec p v with
     | some b => some b
     | none => matchOrFirst spec ps v)

end

/-- Modelled from the spec: a match clause is a pattern, an optional
boolean guard over the pattern's bindings, and an action producing the
clause's result from those bindings. -/
structure MatchClause where
  pattern : Pattern
  guard : Option (Bindings → Bool)
  action : Bindings → Value

/-- A clause accepts a value when its pattern structurally matches and
its guard (if any) passes on the resulting bindings. -/
def clauseAccepts (spec : VariantSpec) (c : MatchClause) (v : Value) : Bool :=
  match matchPat spec c.pattern v with
  | some b =>
    (match c.guard with
     | none => true
     | some g => g b)
  | none => false

/-- Modelled from the spec: the emitted dispatch program tries clauses
top-to-bottom and short-circuits to the first clause whose pattern
matches and whose guard passes, evaluating guards only after structural
match succeeds and only in clause order. Returns the selected clause
index and the action's result. -/
def evalMatchFrom (spec : VariantSpec) (v : Value) :
    Nat → List MatchClause → Option (Nat × Value)
  | _, [] => none
  | i, c :: rest =>
    (match matchPat spec c.pattern v with
     | some b =>
       (match c.guard with
        | none => some (i, c.action b)
        | some g => if g b then some (i, c.action b) else evalMatchFrom spec v (i + 1) rest)
     | none => evalMatchFrom spec v (i + 1) rest)

/-- Result of the emitted dispatch program on a scrutinee value. -/
def evalMatch (spec : VariantSpec) (cls : List MatchClause) (v : Value) : Option Value :=
  (evalMatchFrom spec v 0 cls).map Prod.snd

/-- Index of the clause the emitted dispatch program selects. -/
def selectedClause (spec : VariantSpec) (cls : List MatchClause) (v : Value) : Option Nat :=
  (evalMatchFrom spec v 0 cls).map Prod.fst

/-- Modelled from the spec: compile-time diagnostic taxonomy of the
pipeline; RedundantClause (with the offending clause index) is the only
warning-level kind. -/
inductive Diag where
  | DuplicateConstructor : Diag
  | ArityMismatch : Diag
  | NonExhaustiveMatch : Diag
  | RedundantClause : Nat → Diag
  | InconsistentOrPatternBindings : Diag
  | UnknownConstructorReference : Diag
deriving DecidableEq

/-- Fatal diagnostics abort the pass; RedundantClause is a warning. -/
def isFatal : Diag → Bool
  | .RedundantClause _ => false
  | _ => true

/-- Syntactic subsumption, fuel-bounded: `subsumesF fuel p q` decides
whether every value matched by `q` is matched by `p` (wildcards and
variables cover everything, or-patterns by alternatives, constructor
patterns pointwise). The fuel only bounds the recursion depth. -/
def subsumesF : Nat → Pattern → Pattern → Bool
  | 0, _, _ => false
  | fuel + 1, p, q =>
    match p, q with
    | .wildcard, _ => true
    | .var _, _ => true
    | p2, .orp bs => bs.all (fun b => subsumesF fuel p2 b)
    | .orp as2, q2 => as2.any (fun a => subsumesF fuel a q2)
    | .lit a, .lit b => valueEq a b
    | .ctor n ps, .ctor m qs =>
      n == m && ps.length == qs.length &&
        (ps.zip qs).all (fun pq => subsumesF fuel pq.1 pq.2)
    | _, _ => false

mutual

/-- Size of a pattern, bounding the recursion depth of subsumption. -/
def patSize : Pattern → Nat
  | .wildcard => 1
  | .var _ => 1
  | .lit _ => 1
  | .ctor _ subs => 1 + patSizeList subs
  | .orp alts => 1 + patSizeList alts

/-- Total size of a sub-pattern sequence. -/
def patSizeList : List Pattern → Nat
  | [] => 0
  | p :: ps => patSize p + patSizeList ps

end

/-- Syntactic subsumption of one pattern by another, used by the
redundancy analysis: a clause fully shadowed by an earlier clause is
unreachable. The combined pattern size bounds the recursion depth. -/
def subsumes (p q : Pattern) : Bool :=
  subsumesF (patSize p + patSize q) p q

mutual

/-- Modelled from the spec: whether a pattern statically covers the
constructor with the given tagId — directly via a constructor pattern of
that name, or as a wildcard/variable default; guarded coverage is
handled at the clause level. -/
def patternCoversTag (spec : VariantSpec) : Pattern → Nat → Bool
  | .wildcard, _ => true
  | .var _, _ => true
  | .lit _, _ => false
  | .ctor nm _, t =>
    (match findCtorByName spec nm with
     | some c => c.tagId == t
     | none => false)
  | .orp alts, t => coversAnyTag spec alts t

/-- An or-pattern covers a tag when some alternative covers it. -/
def coversAnyTag (spec : VariantSpec) : List Pattern → Nat → Bool
  | [], _ => false
  | p :: ps, t => patternCoversTag spec p t || coversAnyTag spec ps t

end

mutual

/-- Variables bound by a pattern (for the or-pattern consistency check). -/
def patVars : Pattern → List String
  | .wildcard => []
  | .var nm => [nm]
  | .lit _ => []
  | .ctor _ subs => patVarsList subs
  | .orp alts => patVarsFirst alts

/-- Variables bound across a sub-pattern sequence. -/
def patVarsList : List Pattern → List String
  | [] => []
  | p :: ps => patVars p ++ patVarsList ps

/-- An or-pattern binds the variables of its first alternative (all
alternatives must agree for the pattern to be legal). -/
def patVarsFirst : List Pattern → List String
  | [] => []
  | p :: _ => patVars p

end

/-- Set-equality of two variable-name lists. -/
def varSetEq (a b : List String) : Bool :=
  a.all (fun x => b.contains x) && b.all (fun x => a.contains x)

/-- Modelled from the spec: an or-pattern is legal only if all
alternatives bind an identical set of variable names. -/
def orAltsConsistent (alts : List Pattern) : Bool :=
  alts.all (fun p => varSetEq (patVars p) (patVarsFirst alts))

mutual

/-- Modelled from the spec: structural checks on a single pattern —
UnknownConstructorReference for a constructor never declared,
ArityMismatch when a constructor pattern's sub-pattern count differs
from the declared arity, InconsistentOrPatternBindings for or-patterns
with mismatched binding sets. -/
def patDiags (spec : VariantSpec) : Pattern → List Diag
  | .wildcard => []
  | .var _ => []
  | .lit _ => []
  | .ctor nm subs =>
    (match findCtorByName spec nm with
     | some c => if subs.length = c.arity then [] else [Diag.ArityMismatch]
     | none => [Diag.UnknownConstructorReference])
    ++ patDiagsList spec subs
  | .orp alts =>
    (if orAltsConsistent alts then [] else [Diag.InconsistentOrPatternBindings])
    ++ patDiagsList spec alts

/-- Structural checks over a sub-pattern sequence. -/
def patDiagsList (spec : VariantSpec) : List Pattern → List Diag
  | [] => []
  | p :: ps => patDiags spec p ++ patDiagsList spec ps

end

/-- Modelled from the spec: the exhaustiveness verdict — every
constructor of the scrutinee's VariantSpec must be covered by some
unguarded clause, directly or via a wildcard/variable default (guarded
clauses never satisfy exhaustiveness). -/
def exhaustB (spec : VariantSpec) (cls : List MatchClause) : Bool :=
  spec.constructors.all (fun c =>
    cls.any (fun cl => cl.guard.isNone && patternCoversTag spec cl.pattern c.tagId))

/-- Coverage stated the way the spec words it: the clauses cover every
constructor of the scrutinee's VariantSpec, directly or via a
wildcard/variable default, by an unguarded clause. -/
def coversAllCtors (spec : VariantSpec) (cls : List MatchClause) : Prop :=
  ∀ c ∈ spec.constructors, ∃ cl ∈ cls,
    cl.guard = none ∧ patternCoversTag spec cl.pattern c.tagId = true

/-- Modelled from the spec: redundancy analysis — a clause fully
shadowed by an earlier unguarded clause can never be reached and yields
a RedundantClause warning carrying its index. -/
def redundantDiags (cls : List MatchClause) : List Diag :=
  cls.enum.filterMap (fun p =>
    if (cls.take p.1).any (fun cj => cj.guard.isNone && subsumes cj.pattern p.2.pattern)
    then some (.RedundantClause p.1) else none)

/-- Structural diagnostics of all clause patterns. -/
def clauseListDiags (spec : VariantSpec) : List MatchClause → List Diag
  | [] => []
  | c :: rest => patDiags spec c.pattern ++ clauseListDiags spec rest

/-- Modelled from the spec: compiling a match expression reports the
structural pattern diagnostics, the exhaustiveness verdict
(NonExhaustiveMatch when some constructor is uncovered and no
wildcard/variable default exists) and the redundancy warnings. -/
def compileMatch (spec : VariantSpec) (cls : List MatchClause) : List Diag :=
  clauseListDiags spec cls
    ++ (if exhaustB spec cls then [] else [Diag.NonExhaustiveMatch])
    ++ redundantDiags cls

/-- Modelled from the spec: argument and return expressions of a
self-tail-recursive function, over its parameters (referenced by
position). The funpy.tco package is missing from src/. -/
inductive AExpr where
  | lit : Int → AExpr
  | pvar : Nat → AExpr
  | add : AExpr → AExpr → AExpr
  | sub : AExpr → AExpr → AExpr

/-- Evaluate an argument expression under a parameter environment. -/
def evalA (env : List Int) : AExpr → Int
  | .lit n => n
  | .pvar i => env.getD i 0
  | .add a b => evalA env a + evalA env b
  | .sub a b => evalA env a - evalA env b

/-- Modelled from the spec: the body of a self-tail-recursive function,
with every tail position explicit — return a value, self tail call with
argument expressions, or a conditional (test against zero) whose
branches are in tail position. -/
inductive TBody where
  | ret : AExpr → TBody
  | selfCall : List AExpr → TBody
  | ifz : AExpr → TBody → TBody → TBody

/-- A self-tail-recursive function definition: its body over positional
parameters. -/
structure TailFun where
  body : TBody

/-- Modelled from the spec: the original (unrewritten) recursive
semantics — a self tail call re-enters the function body with the
argument values, consuming one unit of call depth (fuel models the
host's finite call stack). -/
def evalBody (f : TailFun) : Nat → List Int → TBody → Option Int
  | _, env, .ret e => some (evalA env e)
  | fuel, env, .ifz c t e =>
    if evalA env c = 0 then evalBody f fuel env t else evalBody f fuel env e
  | fuel, env, .selfCall args =>
    (match fuel with
     | 0 => none
     | fuel2 + 1 => evalBody f fuel2 (args.map (evalA env)) f.body)
termination_by fuel env b => (fuel, sizeOf b)

/-- Run the unrewritten recursive function on an argument environment. -/
def runOrig (f : TailFun) (fuel : Nat) (env : List Int) : Option Int :=
  evalBody f fuel env f.body

/-- Modelled from the spec: one pass over the trampoline body — a tail
call evaluates all argument expressions under the caller's current
bindings, before any rebinding, and yields the new loop state; a return
yields the final value. -/
def stepBody (env : List Int) : TBody → Sum (List Int) Int
  | .ret e => .inr (evalA env e)
  | .ifz c t e =>
    if evalA env c = 0 then stepBody env t else stepBody env e
  | .selfCall args => .inl (args.map (evalA env))

/-- Modelled from the spec: the emitted trampoline — a loop that rebinds
the parameter state and continues until a return is reached (fuel bounds
the number of loop iterations so the model stays total). -/
def tramp (f : TailFun) : Nat → List Int → Option Int
  | fuel, env =>
    (match stepBody env f.body with
     | .inr r => some r
     | .inl env2 =>
       match fuel with
       | 0 => none
       | fuel2 + 1 => tramp f fuel2 env2)

/-- A tail-call site of a body: the argument expressions of some
selfCall reachable through conditional branches in tail position. -/
inductive TailSite : TBody → List AExpr → Prop where
  | self (args : List AExpr) : TailSite (.selfCall args) args
  | ifzT (c : AExpr) (t e : TBody) (args : List AExpr) :
      TailSite t args → TailSite (.ifz c t e) args
  | ifzE (c : AExpr) (t e : TBody) (args : List AExpr) :
      TailSite e args → TailSite (.ifz c t e) args

/-- Sequential (one-parameter-at-a-time) rebinding, for contrast: each
argument is evaluated under the partially updated environment. The
emitted trampoline must NOT behave like this. -/
def seqRebindGo : List Int → Nat → List AExpr → List Int
  | env2, _, [] => env2
  | env2, i, a :: rest => seqRebindGo (env2.set i (evalA env2 a)) (i + 1) rest

/-- Sequential rebinding starts at parameter position zero. -/
def seqRebind (env : List Int) (args : List AExpr) : List Int :=
  seqRebindGo env 0 args

/-- The spec's example function: loop(acc, n) = if n == 0 then acc else
loop(acc + n, n - 1), written over the tail-call model (parameter 0 is
acc, parameter 1 is n). -/
def loopFun : TailFun :=
  ⟨.ifz (.pvar 1) (.ret (.pvar 0))
    (.selfCall [.add (.pvar 0) (.pvar 1), .sub (.pvar 1) (.lit 1)])⟩

/-- Reference mathematical definition of the spec's loop example. -/
def loopRec (acc : Int) : Nat → Int
  | 0 => acc
  | n + 1 => loopRec (acc + ((n : Int) + 1)) n

/-- Triangular numbers, the closed meaning of the loop example. -/
def sumTo : Nat → Nat
  | 0 => 0
  | n + 1 => (n + 1) + sumTo n

/-- Modelled from the spec: top-level forms of one compilation unit —
ADT declarations, match expressions (naming the scrutinee's variant
type), candidate tail-recursive functions, opaque host forms, and the
compiled replacements the pipeline splices back in. -/
inductive Form where
  | adtDecl : String → List (String × Nat) → Form
  | matchForm : String → List MatchClause → Form
  | funForm : TailFun → Form
  | hostForm : Form
  | compiledDecl : VariantSpec → Form
  | compiledMatch : String → List MatchClause → Form
  | compiledFun : TailFun → Form

/-- The variant registry: type names mapped to their VariantSpec,
populated incrementally as ADT declarations are compiled. -/
abbrev Registry : Type := List VariantSpec

/-- Whether a list of constructor names contains a duplicate. -/
def hasDupName : List String → Bool
  | [] => false
  | x :: xs => xs.contains x || hasDupName xs

/-- Look up a VariantSpec by type name. -/
def lookupSpec (reg : Registry) (tn : String) : Option VariantSpec :=
  reg.find? (fun s => s.typeName == tn)

/-- Modelled from the spec: first phase of the driver — process every
ADT declaration of the unit to completion, registering its VariantSpec
(append-only) and reporting DuplicateConstructor (fatal at declaration
time) for a duplicated constructor name within one VariantSpec. -/
def registerDecls (reg : Registry) : List Form → Registry × List Diag
  | [] => (reg, [])
  | .adtDecl n cs :: rest =>
    let d : List Diag :=
      if hasDupName (cs.map Prod.fst) then [Diag.DuplicateConstructor] else []
    let r2 := registerDecls (reg ++ [mkVariantSpec n cs]) rest
    (r2.1, d ++ r2.2)
  | _ :: rest => registerDecls reg rest

/-- Modelled from the spec: second phase of the driver — rewrite each
form in place. ADT declarations become their compiled registration
form, match expressions are compiled against the (fully populated)
registry, candidate tail-recursive functions become trampolines, and
everything else is preserved untouched. -/
def compileForm (reg : Registry) : Form → Form × List Diag
  | .adtDecl n cs => (.compiledDecl (mkVariantSpec n cs), [])
  | .matchForm tn cls =>
    (match lookupSpec reg tn with
     | some spec => (.compiledMatch tn cls, compileMatch spec cls)
     | none => (.matchForm tn cls, [Diag.UnknownConstructorReference]))
  | .funForm f => (.compiledFun f, [])
  | f => (f, [])

/-- All diagnostics the pass aggregates for one unit: declaration-time
diagnostics followed by every form's compilation diagnostics. -/
def unitDiags (fs : List Form) (reg : Registry) : List Diag :=
  let r2 := registerDecls reg fs
  r2.2 ++ (fs.map (fun f => (compileForm r2.1 f).2)).flatten

/-- Modelled from the spec: the single entry point of the pipeline. It
aggregates all diagnostics of the unit; if any fatal diagnostic was
produced the whole pass fails with the diagnostics and returns no tree
(all-or-nothing); otherwise it returns the transformed tree, the
updated registry and the warnings. -/
def transform (fs : List Form) (reg : Registry) :
    Except (List Diag) (List Form × Registry × List Diag) :=
  let r2 := registerDecls reg fs
  let ds := unitDiags fs reg
  if ds.any isFatal then .error ds
  else .ok (fs.map (fun f => (compileForm r2.1 f).1), r2.1,
            ds.filter (fun d => !isFatal d))

/-! Concrete fixtures used by witnesses and scenario conjuncts: the
variant type with constructors Zero() and Succ(n) from the spec's
testable properties. -/

/-- The Zero/Succ variant type of the spec's scenario. -/
def natSpec : VariantSpec := mkVariantSpec "NatT" [("Zero", 0), ("Succ", 1)]

/-- The runtime value Succ(0). -/
def succ0 : Value := .variant 1 [.vint 0]

/-- Clause Succ(n) -> "s". -/
def clsS : MatchClause := ⟨.ctor "Succ" [.var "n"], none, fun _ => .vstr "s"⟩

/-- Clause Succ(0) -> "s0". -/
def clsS0 : MatchClause := ⟨.ctor "Succ" [.lit (.vint 0)], none, fun _ => .vstr "s0"⟩

/-- Clause Zero() -> "z". -/
def clsZ : MatchClause := ⟨.ctor "Zero" [], none, fun _ => .vstr "z"⟩

theorem assignTags_get? (cs : List (String × Nat)) (k i : Nat) :
    (assignTags k cs).get? i =
      (cs.get? i).map (fun p => ⟨p.1, p.2, k + i⟩) := by
  induction cs generalizing k i with
  | nil => simp [assignTags]
  | cons hd tl ih =>
    cases i with
    | zero => simp [assignTags]
    | succ j =>
      simp only [assignTags, List.get?_cons_succ]
      rw [ih]
      have harith : k + 1 + j = k + (j + 1) := by omega
      rw [harith]

theorem assignTags_find?_tag (cs : List (String × Nat)) (k i : Nat)
    (hik : k ≤ i) :
    (assignTags k cs).find? (fun c => c.tagId == i) =
      (cs.get? (i - k)).map (fun p => ⟨p.1, p.2, i⟩) := by
  induction cs generalizing k with
  | nil => simp [assignTags]
  | cons hd tl ih =>
    by_cases h : k = i
    · subst h
      simp [assignTags, List.find?]
    · have hlt : k < i := lt_of_le_of_ne hik h
      have : (⟨hd.1, hd.2, k⟩ : ConstructorSpec).tagId ≠ i := by
        simpa using Nat.ne_of_lt hlt
      simp only [assignTags, List.find?]
      have hbeq : ((⟨hd.1, hd.2, k⟩ : ConstructorSpec).tagId == i) = false := by
        simpa using this
      rw [hbeq, ih (k + 1) (by omega)]
      have : i - k = (i - (k + 1)) + 1 := by omega
      rw [this]
      simp

theorem findCtorByTag_mk (name : String) (cs : List (String × Nat)) (i : Nat) :
    findCtorByTag (mkVariantSpec name cs) i =
      (cs.get? i).map (fun p => ⟨p.1, p.2, i⟩) := by
  unfold findCtorByTag mkVariantSpec
  simpa using assignTags_find?_tag cs 0 i (Nat.zero_le i)

/-! C1, C5, C6: the variant runtime contract. -/

/-- C1: for every VariantSpec with N constructors, constructing a
VariantValue with constructor i (passing arity_i arguments) and then
reading its tag returns i, and reading field j for every j < arity_i
returns exactly the j-th argument passed to the constructor. -/
theorem c1_construct_tag_fields (name : String) (cs : List (String × Nat))
    (i : Nat) (nm : String) (a : Nat) (args : List Value)
    (hc : cs.get? i = some (nm, a)) (hlen : args.length = a) :
    construct (mkVariantSpec name cs) i args = .ok (.variant i args) ∧
    getTag (.variant i args) = some i ∧
    ∀ j, j < a → fieldAccess (mkVariantSpec name cs) (.variant i args) j =
      .ok (args.getD j (.vint 0)) := by
  refine ⟨?_, rfl, ?_⟩
  · unfold construct
    rw [findCtorByTag_mk, hc]
    simp [hlen]
  · intro j hj
    have hjlen : j < args.length := by omega
    simp only [fieldAccess]
    rw [findCtorByTag_mk, hc]
    cases hx : args[j]? with
    | none => exact absurd (List.getElem?_eq_none_iff.mp hx) (by omega)
    | some x =>
      simp [hj, List.get?_eq_getElem?, hx, List.getD_eq_getElem?_getD]

/-- C1 witness: constructing Succ(7) over the Zero/Succ spec yields tag
1 and field 0 reads back 7. -/
theorem c1_construct_tag_fields_witness :
    construct natSpec 1 [.vint 7] = .ok (.variant 1 [.vint 7]) ∧
    getTag (.variant 1 [.vint 7]) = some 1 ∧
    fieldAccess natSpec (.variant 1 [.vint 7]) 0 = .ok (.vint 7) := by
  have h := c1_construct_tag_fields "NatT" [("Zero", 0), ("Succ", 1)] 1 "Succ" 1
    [.vint 7] rfl rfl
  exact ⟨h.1, h.2.1, h.2.2 0 (by decide)⟩

/-- C5: constructing a VariantValue fails with ArityMismatch exactly
when the supplied field count differs from the declared arity of the
constructor identified by the tagId, and on success the value keeps the
field sequence unchanged (no truncation or padding) with
length(fields) = declared arity. -/
theorem c5_construct_arity_mismatch (spec : VariantSpec) (tag : Nat)
    (c : ConstructorSpec) (fields : List Value)
    (hc : findCtorByTag spec tag = some c) :
    (construct spec tag fields = .error .ArityMismatch ↔ fields.length ≠ c.arity) ∧
    (∀ v, construct spec tag fields = .ok v →
      v = .variant tag fields ∧ fields.length = c.arity) := by
  unfold construct
  rw [hc]
  dsimp only
  by_cases h : fields.length = c.arity
  · refine ⟨?_, ?_⟩
    · rw [if_pos h]
      simp [h]
    · rw [if_pos h]
      intro v hv
      simp only [Except.ok.injEq] at hv
      exact ⟨hv.symm, h⟩
  · rw [if_neg h]
    simp [h]

/-- C5 witness: Succ applied to one value succeeds with the field kept;
Succ applied to two values fails with ArityMismatch. -/
theorem c5_construct_arity_mismatch_witness :
    construct natSpec 1 [.vint 3, .vint 4] = .error .ArityMismatch ∧
    construct natSpec 1 [.vint 3] = .ok (.variant 1 [.vint 3]) := by
  have h2 := c5_construct_arity_mismatch natSpec 1 ⟨"Succ", 1, 1⟩
    [.vint 3, .vint 4] (by decide)
  exact ⟨h2.1.mpr (by decide), rfl⟩

/-- C6: the field accessor fails with FieldIndexOutOfRange when the
index is at least the declared arity of the value's constructor, and
returns the i-th field when the index is below that arity. -/
theorem c6_field_access_range (spec : VariantSpec) (t : Nat) (fs : List Value)
    (c : ConstructorSpec) (i : Nat)
    (hc : findCtorByTag spec t = some c) (hlen : fs.length = c.arity) :
    (c.arity ≤ i →
      fieldAccess spec (.variant t fs) i = .error .FieldIndexOutOfRange) ∧
    (i < c.arity →
      fieldAccess spec (.variant t fs) i = .ok (fs.getD i (.vint 0))) := by
  constructor
  · intro hge
    simp only [fieldAccess]
    rw [hc]
    simp [Nat.not_lt.mpr hge]
  · intro hlt
    have hilen : i < fs.length := by omega
    simp only [fieldAccess]
    rw [hc]
    cases hx : fs[i]? with
    | none => exact absurd (List.getElem?_eq_none_iff.mp hx) (by omega)
    | some x =>
      simp [hlt, List.get?_eq_getElem?, hx, List.getD_eq_getElem?_getD]

/-! C2: clause order is a binding contract. -/

theorem evalMatchFrom_first (spec : VariantSpec) (v : Value)
    (cls : List MatchClause) (k i : Nat) (ci : MatchClause)
    (hi : cls.get? i = some ci)
    (hacc : clauseAccepts spec ci v = true)
    (hbefore : ∀ j cj, j < i → cls.get? j = some cj →
      clauseAccepts spec cj v = false) :
    ∃ b, matchPat spec ci.pattern v = some b ∧
      evalMatchFrom spec v k cls = some (k + i, ci.action b) := by
  induction cls generalizing k i with
  | nil => simp at hi
  | cons c rest ih =>
    cases i with
    | zero =>
      have hce : c = ci := by simpa using hi
      subst hce
      cases hm : matchPat spec c.pattern v with
      | none => simp [clauseAccepts, hm] at hacc
      | some b =>
        refine ⟨b, rfl, ?_⟩
        cases hg : c.guard with
        | none =>
          simp only [evalMatchFrom, hm, hg]
          simp
        | some g =>
          simp only [clauseAccepts, hm, hg] at hacc
          simp only [evalMatchFrom, hm, hg, hacc]
          simp
    | succ j =>
      simp only [List.get?_cons_succ] at hi
      have hc0 : clauseAccepts spec c v = false := hbefore 0 c (by omega) rfl
      have hrest : ∀ j2 cj, j2 < j → rest.get? j2 = some cj →
          clauseAccepts spec cj v = false := by
        intro j2 cj hj2 hg
        exact hbefore (j2 + 1) cj (by omega) (by simpa using hg)
      obtain ⟨b, hb, hev⟩ := ih (k + 1) j hi hrest
      refine ⟨b, hb, ?_⟩
      have harith : k + 1 + j = k + (j + 1) := by omega
      cases hm : matchPat spec c.pattern v with
      | none =>
        simp only [evalMatchFrom, hm]
        rw [hev, harith]
      | some b0 =>
        cases hg : c.guard with
        | none => simp [clauseAccepts, hm, hg] at hc0
        | some g =>
          simp only [clauseAccepts, hm, hg] at hc0
          simp only [evalMatchFrom, hm, hg, hc0, Bool.false_eq_true, if_false]
          rw [hev, harith]

/-- C2: the compiled dispatch selects the first clause (top-to-bottom)
whose pattern structurally matches the scrutinee and whose guard (if
any) passes; in the Zero/Succ scenario, clauses
[Succ(n) -> "s", Succ(0) -> "s0"] applied to Succ(0) select clause 0
and yield "s" (never "s0"), and compilation emits a RedundantClause
warning for the second clause. -/
theorem c2_first_match_wins (spec : VariantSpec) (v : Value)
    (cls : List MatchClause) (i : Nat) (ci : MatchClause)
    (hi : cls.get? i = some ci)
    (hacc : clauseAccepts spec ci v = true)
    (hbefore : ∀ j cj, j < i → cls.get? j = some cj →
      clauseAccepts spec cj v = false) :
    (selectedClause spec cls v = some i ∧
      ∃ b, matchPat spec ci.pattern v = some b ∧
        evalMatch spec cls v = some (ci.action b)) ∧
    (evalMatch natSpec [clsS, clsS0] succ0 = some (.vstr "s") ∧
      selectedClause natSpec [clsS, clsS0] succ0 = some 0 ∧
      Diag.RedundantClause 1 ∈ compileMatch natSpec [clsS, clsS0]) := by
  obtain ⟨b, hb, hev⟩ := evalMatchFrom_first spec v cls 0 i ci hi hacc hbefore
  refine ⟨⟨?_, b, hb, ?_⟩, rfl, rfl, by decide⟩
  · unfold selectedClause
    rw [hev]
    simp
  · unfold evalMatch
    rw [hev]
    rfl

/-- C2 witness: on the Succ(0) scenario, clause 0 is selected. -/
theorem c2_first_match_wins_witness :
    selectedClause natSpec [clsS, clsS0] succ0 = some 0 := by
  have h := c2_first_match_wins natSpec succ0 [clsS, clsS0] 0 clsS rfl
    (by decide) (fun j cj hj _ => absurd hj (by omega))
  exact h.1.1

/-! C7, C8: the tail-call rewriter. -/

theorem evalBody_ret (f : TailFun) (fuel : Nat) (env : List Int) (e : AExpr) :
    evalBody f fuel env (.ret e) = some (evalA env e) := by
  simp [evalBody]

theorem evalBody_ifz (f : TailFun) (fuel : Nat) (env : List Int)
    (c : AExpr) (t e : TBody) :
    evalBody f fuel env (.ifz c t e) =
      if evalA env c = 0 then evalBody f fuel env t else evalBody f fuel env e := by
  simp [evalBody]

theorem evalBody_call_zero (f : TailFun) (env : List Int) (args : List AExpr) :
    evalBody f 0 env (.selfCall args) = none := by
  simp [evalBody]

theorem evalBody_call_succ (f : TailFun) (fuel : Nat) (env : List Int)
    (args : List AExpr) :
    evalBody f (fuel + 1) env (.selfCall args) =
      evalBody f fuel (args.map (evalA env)) f.body := by
  simp [evalBody]

theorem evalBody_step (f : TailFun) (fuel : Nat) (env : List Int) (b : TBody) :
    evalBody f fuel env b =
      (match stepBody env b with
       | .inr r => some r
       | .inl env2 =>
         match fuel with
         | 0 => none
         | fuel2 + 1 => evalBody f fuel2 env2 f.body) := by
  induction b with
  | ret e => simp [evalBody_ret, stepBody]
  | selfCall args =>
    cases fuel with
    | zero => simp [evalBody_call_zero, stepBody]
    | succ fuel2 => simp [evalBody_call_succ, stepBody]
  | ifz c t e iht ihe =>
    rw [evalBody_ifz]
    by_cases hc : evalA env c = 0
    · rw [if_pos hc, iht]
      simp [stepBody, hc]
    · rw [if_neg hc, ihe]
      simp [stepBody, hc]

theorem runOrig_eq_tramp (f : TailFun) (fuel : Nat) (env : List Int) :
    runOrig f fuel env = tramp f fuel env := by
  induction fuel generalizing env with
  | zero =>
    rw [runOrig, evalBody_step]
    cases hs : stepBody env f.body with
    | inr r => rw [tramp, hs]
    | inl env2 => rw [tramp, hs]
  | succ fuel2 ih =>
    rw [runOrig, evalBody_step]
    cases hs : stepBody env f.body with
    | inr r => rw [tramp, hs]
    | inl env2 =>
      rw [tramp, hs]
      exact ih env2

theorem loopRec_eq_sumTo (n : Nat) : ∀ acc : Int, loopRec acc n = acc + (sumTo n : Int) := by
  induction n with
  | zero =>
    intro acc
    simp [loopRec, sumTo]
  | succ m ih =>
    intro acc
    rw [loopRec, ih, sumTo]
    push_cast
    ring

theorem two_mul_sumTo (n : Nat) : 2 * sumTo n = n * (n + 1) := by
  induction n with
  | zero => simp [sumTo]
  | succ m ih =>
    calc 2 * sumTo (m + 1) = 2 * (m + 1) + 2 * sumTo m := by rw [sumTo]; ring
    _ = 2 * (m + 1) + m * (m + 1) := by rw [ih]
    _ = (m + 1) * (m + 1 + 1) := by ring

theorem sumTo_closed (n : Nat) : sumTo n = n * (n + 1) / 2 := by
  have h := two_mul_sumTo n
  omega

theorem loop_run (n : Nat) : ∀ (acc : Int) (fuel : Nat), n < fuel →
    runOrig loopFun fuel [acc, (n : Int)] = some (loopRec acc n) := by
  induction n with
  | zero =>
    intro acc fuel hf
    rw [runOrig]
    show evalBody loopFun fuel [acc, ((0 : Nat) : Int)]
      (.ifz (.pvar 1) (.ret (.pvar 0))
        (.selfCall [.add (.pvar 0) (.pvar 1), .sub (.pvar 1) (.lit 1)])) = _
    rw [evalBody_ifz]
    have hc : evalA [acc, ((0 : Nat) : Int)] (.pvar 1) = 0 := by
      simp [evalA]
    rw [hc, if_pos rfl, evalBody_ret]
    simp [evalA, loopRec]
  | succ m ih =>
    intro acc fuel hf
    cases fuel with
    | zero => omega
    | succ fuel2 =>
      rw [runOrig]
      show evalBody loopFun (fuel2 + 1) [acc, ((m + 1 : Nat) : Int)]
        (.ifz (.pvar 1) (.ret (.pvar 0))
          (.selfCall [.add (.pvar 0) (.pvar 1), .sub (.pvar 1) (.lit 1)])) = _
      rw [evalBody_ifz]
      have hA : evalA [acc, ((m + 1 : Nat) : Int)] (.pvar 1) = (m : Int) + 1 := by
        simp [evalA]
      have hne : ((m : Int) + 1) ≠ 0 := by omega
      rw [hA, if_neg hne, evalBody_call_succ]
      have hmap : ([AExpr.add (.pvar 0) (.pvar 1), AExpr.sub (.pvar 1) (.lit 1)]).map
          (evalA [acc, ((m + 1 : Nat) : Int)]) = [acc + ((m : Int) + 1), (m : Int)] := by
        simp [evalA]
      rw [hmap]
      have hrec := ih (acc + ((m : Int) + 1)) fuel2 (by omega)
      rw [runOrig] at hrec
      rw [hrec, loopRec]

/-- C7: the original recursive form and the rewritten trampoline form
agree on every function, fuel and input (so on every input on which
both terminate they return equal results); in particular the loop
example returns 5000050000 for n = 100000 under the trampoline (which
runs iteratively, not by stack recursion) and 15 for n = 5, matching
the unrewritten definition. -/
theorem c7_trampoline_equivalence :
    (∀ (f : TailFun) (fuel : Nat) (env : List Int),
      runOrig f fuel env = tramp f fuel env) ∧
    tramp loopFun 100001 [0, 100000] = some 5000050000 ∧
    runOrig loopFun 100001 [0, 100000] = some 5000050000 ∧
    tramp loopFun 6 [0, 5] = some 15 ∧
    runOrig loopFun 6 [0, 5] = some 15 := by
  have hcast5 : ((5 : Nat) : Int) = (5 : Int) := by norm_cast
  have hcastBig : ((100000 : Nat) : Int) = (100000 : Int) := by norm_cast
  have h5 : runOrig loopFun 6 [0, 5] = some 15 := by
    have h := loop_run 5 0 6 (by norm_num)
    rw [hcast5] at h
    rw [h, loopRec_eq_sumTo]
    norm_num [sumTo_closed]
  have hBig : runOrig loopFun 100001 [0, 100000] = some 5000050000 := by
    have h := loop_run 100000 0 100001 (by norm_num)
    rw [hcastBig] at h
    rw [h, loopRec_eq_sumTo]
    rw [sumTo_closed]
    norm_num
  refine ⟨runOrig_eq_tramp, ?_, hBig, ?_, h5⟩
  · rw [← runOrig_eq_tramp]
    exact hBig
  · rw [← runOrig_eq_tramp]
    exact h5

/-! C3, C4: exhaustiveness analysis. -/

mutual

theorem nem_not_in_patDiags (spec : VariantSpec) (p : Pattern) :
    Diag.NonExhaustiveMatch ∉ patDiags spec p := by
  cases p with
  | wildcard => simp [patDiags]
  | var nm => simp [patDiags]
  | lit l => simp [patDiags]
  | ctor nm subs =>
    simp only [patDiags, List.mem_append]
    rintro (h | h)
    · cases hf : findCtorByName spec nm with
      | none => rw [hf] at h; simp at h
      | some c =>
        rw [hf] at h
        dsimp only at h
        split at h <;> simp at h
    · exact nem_not_in_patDiagsList spec subs h
  | orp alts =>
    simp only [patDiags, List.mem_append]
    rintro (h | h)
    · by_cases ho : orAltsConsistent alts = true
      · rw [if_pos ho] at h; simp at h
      · rw [if_neg ho] at h; simp at h
    · exact nem_not_in_patDiagsList spec alts h

theorem nem_not_in_patDiagsList (spec : VariantSpec) (ps : List Pattern) :
    Diag.NonExhaustiveMatch ∉ patDiagsList spec ps := by
  cases ps with
  | nil => simp [patDiagsList]
  | cons p rest =>
    simp only [patDiagsList, List.mem_append]
    rintro (h | h)
    · exact nem_not_in_patDiags spec p h
    · exact nem_not_in_patDiagsList spec rest h

end

theorem nem_not_in_clauseListDiags (spec : VariantSpec) (cls : List MatchClause) :
    Diag.NonExhaustiveMatch ∉ clauseListDiags spec cls := by
  induction cls with
  | nil => simp [clauseListDiags]
  | cons c rest ih =>
    simp only [clauseListDiags, List.mem_append]
    rintro (h | h)
    · exact nem_not_in_patDiags spec c.pattern h
    · exact ih h

theorem nem_not_in_redundantDiags (cls : List MatchClause) :
    Diag.NonExhaustiveMatch ∉ redundantDiags cls := by
  intro h
  unfold redundantDiags at h
  obtain ⟨p, hp, heq⟩ := List.mem_filterMap.mp h
  by_cases hs : ((cls.take p.1).any
      (fun cj => cj.guard.isNone && subsumes cj.pattern p.2.pattern)) = true
  · rw [if_pos hs] at heq; simp at heq
  · rw [if_neg hs] at heq; simp at heq

/-- The NonExhaustiveMatch diagnostic appears in a match compilation
exactly when the exhaustiveness verdict is negative. -/
theorem nem_mem_compileMatch (spec : VariantSpec) (cls : List MatchClause) :
    Diag.NonExhaustiveMatch ∈ compileMatch spec cls ↔ exhaustB spec cls = false := by
  unfold compileMatch
  simp only [List.mem_append]
  constructor
  · rintro ((h | h) | h)
    · exact absurd h (nem_not_in_clauseListDiags spec cls)
    · by_cases he : exhaustB spec cls = true
      · rw [if_pos he] at h; simp at h
      · simpa using he
    · exact absurd h (nem_not_in_redundantDiags cls)
  · intro h
    left; right
    rw [h]
    simp

/-- The exhaustiveness verdict agrees with the spec-worded coverage
condition: every constructor covered by an unguarded clause, directly
or via a wildcard/variable default. -/
theorem exhaustB_iff_covers (spec : VariantSpec) (cls : List MatchClause) :
    exhaustB spec cls = true ↔ coversAllCtors spec cls := by
  unfold exhaustB coversAllCtors
  rw [List.all_eq_true]
  constructor
  · intro h c hc
    obtain ⟨cl, hcl, hb⟩ := List.any_eq_true.mp (h c hc)
    rw [Bool.and_eq_true] at hb
    exact ⟨cl, hcl, Option.isNone_iff_eq_none.mp hb.1, hb.2⟩
  · intro h c hc
    obtain ⟨cl, hcl, hg, hcov⟩ := h c hc
    refine List.any_eq_true.mpr ⟨cl, hcl, ?_⟩
    rw [Bool.and_eq_true]
    exact ⟨by simp [hg], hcov⟩

/-- C3: compilation emits no NonExhaustiveMatch exactly when the
clauses cover every constructor of the scrutinee's VariantSpec
(directly or via a wildcard/variable default); and removing the clause
that was the sole cover of some constructor makes NonExhaustiveMatch
appear. -/
theorem c3_exhaustiveness_iff_coverage (spec : VariantSpec)
    (cls : List MatchClause) (c : ConstructorSpec) (k : Nat)
    (hc : c ∈ spec.constructors)
    (hun : ∀ cl ∈ cls.eraseIdx k, cl.guard = none →
      patternCoversTag spec cl.pattern c.tagId = false) :
    (Diag.NonExhaustiveMatch ∉ compileMatch spec cls ↔ coversAllCtors spec cls) ∧
    Diag.NonExhaustiveMatch ∈ compileMatch spec (cls.eraseIdx k) := by
  constructor
  · rw [← exhaustB_iff_covers]
    rw [nem_mem_compileMatch]
    constructor
    · intro h
      cases he : exhaustB spec cls with
      | true => rfl
      | false => exact absurd he h
    · intro h h2
      rw [h] at h2
      exact absurd h2 (by simp)
  · rw [nem_mem_compileMatch]
    cases he : exhaustB spec (cls.eraseIdx k) with
    | false => rfl
    | true =>
      exfalso
      obtain ⟨cl, hcl, hg, hcov⟩ := (exhaustB_iff_covers spec _).mp he c hc
      rw [hun cl hcl hg] at hcov
      exact absurd hcov (by simp)

/-- C3 witness: [Succ(n) -> "s", Zero() -> "z"] covers the Zero/Succ
space; removing the Zero clause produces NonExhaustiveMatch. -/
theorem c3_exhaustiveness_iff_coverage_witness :
    Diag.NonExhaustiveMatch ∈ compileMatch natSpec ([clsS, clsZ].eraseIdx 1) := by
  have hun : ∀ cl ∈ [clsS, clsZ].eraseIdx 1, cl.guard = none →
      patternCoversTag natSpec cl.pattern (0 : Nat) = false := by
    intro cl hcl _
    have hc : cl = clsS := by simpa using hcl
    subst hc
    decide
  exact (c3_exhaustiveness_iff_coverage natSpec [clsS, clsZ] ⟨"Zero", 0, 0⟩ 1
    (by decide) hun).2

theorem any_perm_eq (cls cls2 : List MatchClause) (h : cls.Perm cls2)
    (g : MatchClause → Bool) : cls.any g = cls2.any g := by
  have hiff : cls.any g = true ↔ cls2.any g = true := by
    simp only [List.any_eq_true]
    constructor <;> rintro ⟨x, hx, hgx⟩
    · exact ⟨x, h.mem_iff.mp hx, hgx⟩
    · exact ⟨x, h.mem_iff.mpr hx, hgx⟩
  cases hca : cls.any g with
  | true => exact (hiff.mp hca).symm
  | false =>
    cases hcb : cls2.any g with
    | true =>
      have h2 := hiff.mpr hcb
      rw [hca] at h2
      exact absurd h2 (by simp)
    | false => rfl

/-- C4: the exhaustiveness verdict is invariant under any permutation
of the clause list (so a reordered covering match is still compiled as
exhaustive), while clause selection is order-sensitive: on the covering
Zero/Succ match, the value Succ(0) selects "s" in the original order
and "s0" after swapping the two Succ clauses. -/
theorem c4_reorder_exhaustive_selection (spec : VariantSpec)
    (cls cls2 : List MatchClause) (hperm : cls.Perm cls2) :
    (exhaustB spec cls = exhaustB spec cls2 ∧
      (Diag.NonExhaustiveMatch ∈ compileMatch spec cls ↔
        Diag.NonExhaustiveMatch ∈ compileMatch spec cls2)) ∧
    (exhaustB natSpec [clsS, clsS0, clsZ] = true ∧
      exhaustB natSpec [clsS0, clsS, clsZ] = true ∧
      evalMatch natSpec [clsS, clsS0, clsZ] succ0 = some (.vstr "s") ∧
      evalMatch natSpec [clsS0, clsS, clsZ] succ0 = some (.vstr "s0") ∧
      Value.vstr "s" ≠ Value.vstr "s0") := by
  have hex : exhaustB spec cls = exhaustB spec cls2 := by
    unfold exhaustB
    have hall : ∀ (l : List ConstructorSpec),
        (l.all (fun c => cls.any
          (fun cl => cl.guard.isNone && patternCoversTag spec cl.pattern c.tagId))) =
        (l.all (fun c => cls2.any
          (fun cl => cl.guard.isNone && patternCoversTag spec cl.pattern c.tagId))) := by
      intro l
      induction l with
      | nil => rfl
      | cons hd tl ih =>
        simp only [List.all_cons, ih, any_perm_eq cls cls2 hperm]
    exact hall spec.constructors
  refine ⟨⟨hex, ?_⟩, by decide, by decide, rfl, rfl, by simp⟩
  rw [nem_mem_compileMatch, nem_mem_compileMatch, hex]

/-- C4 witness: swapping the two Succ clauses of the covering match
keeps the exhaustiveness verdict. -/
theorem c4_reorder_exhaustive_selection_witness :
    exhaustB natSpec [clsS, clsS0, clsZ] = exhaustB natSpec [clsS0, clsS, clsZ] := by
  exact (c4_reorder_exhaustive_selection natSpec [clsS, clsS0, clsZ]
    [clsS0, clsS, clsZ] (List.Perm.swap clsS0 clsS [clsZ])).1.1

/-- C6 witness: on Succ(9), field 0 reads 9 and field 5 is out of
range. -/
theorem c6_field_access_range_witness :
    fieldAccess natSpec (.variant 1 [.vint 9]) 0 = .ok (.vint 9) ∧
    fieldAccess natSpec (.variant 1 [.vint 9]) 5 = .error .FieldIndexOutOfRange := by
  have h0 := c6_field_access_range natSpec 1 [.vint 9] ⟨"Succ", 1, 1⟩ 0
    (by decide) (by decide)
  have h5 := c6_field_access_range natSpec 1 [.vint 9] ⟨"Succ", 1, 1⟩ 5
    (by decide) (by decide)
  exact ⟨h0.2 (by decide), h5.1 (by decide)⟩

theorem stepBody_inl_tailsite (env : List Int) (b : TBody) (env2 : List Int)
    (h : stepBody env b = .inl env2) :
    ∃ args, TailSite b args ∧ env2 = args.map (evalA env) := by
  induction b with
  | ret e => simp [stepBody] at h
  | selfCall args =>
    refine ⟨args, TailSite.self args, ?_⟩
    simp only [stepBody, Sum.inl.injEq] at h
    exact h.symm
  | ifz c t e iht ihe =>
    rw [show stepBody env (.ifz c t e) =
        (if evalA env c = 0 then stepBody env t else stepBody env e) from rfl] at h
    by_cases hc : evalA env c = 0
    · rw [if_pos hc] at h
      obtain ⟨args, hsite, heq⟩ := iht h
      exact ⟨args, TailSite.ifzT c t e args hsite, heq⟩
    · rw [if_neg hc] at h
      obtain ⟨args, hsite, heq⟩ := ihe h
      exact ⟨args, TailSite.ifzE c t e args hsite, heq⟩

/-- C8: when the trampoline takes a tail call, every new parameter
value is its argument expression evaluated under the caller's current
(pre-rebinding) environment — all arguments are evaluated before any
rebinding, so none can observe a partially updated parameter; the
sequential-rebinding alternative demonstrably differs on the swap
call f(a, b) -> f(b, a) from (1, 2). -/
theorem c8_arguments_before_rebinding (env : List Int) (b : TBody)
    (env2 : List Int) (h : stepBody env b = .inl env2) :
    (∃ args, TailSite b args ∧ env2 = args.map (evalA env) ∧
      ∀ i, env2.get? i = (args.get? i).map (evalA env)) ∧
    (stepBody [1, 2] (.selfCall [.pvar 1, .pvar 0]) = .inl [2, 1] ∧
      seqRebind [1, 2] [.pvar 1, .pvar 0] = [2, 2] ∧
      ([2, 1] : List Int) ≠ [2, 2]) := by
  obtain ⟨args, hsite, heq⟩ := stepBody_inl_tailsite env b env2 h
  refine ⟨⟨args, hsite, heq, ?_⟩, rfl, rfl, by decide⟩
  intro i
  rw [heq, List.get?_map]

/-- C8 witness: the swap tail call from environment (1, 2) rebinds the
state to (2, 1), each argument read under the original bindings. -/
theorem c8_arguments_before_rebinding_witness :
    seqRebind [1, 2] [.pvar 1, .pvar 0] = [2, 2] := by
  exact (c8_arguments_before_rebinding [1, 2] (.selfCall [.pvar 1, .pvar 0])
    [2, 1] rfl).2.2.1

/-! C9, C10: the pipeline driver. -/

/-- C9: the transform pass is all-or-nothing per compilation unit — it
fails (returning no tree, only the aggregated diagnostics) exactly when
some fatal diagnostic was produced; with only warnings it succeeds and
surfaces the warnings alongside the transformed tree; and the
non-fatal kinds are exactly the RedundantClause warnings. -/
theorem c9_all_or_nothing (fs : List Form) (reg : Registry) :
    ((unitDiags fs reg).any isFatal = true ↔
      transform fs reg = .error (unitDiags fs reg)) ∧
    ((unitDiags fs reg).any isFatal = false →
      transform fs reg = .ok
        (fs.map (fun f => (compileForm (registerDecls reg fs).1 f).1),
         (registerDecls reg fs).1,
         (unitDiags fs reg).filter (fun d => !isFatal d))) ∧
    (∀ d : Diag, isFatal d = false ↔ ∃ n, d = Diag.RedundantClause n) := by
  refine ⟨?_, ?_, ?_⟩
  · constructor
    · intro h
      unfold transform
      rw [if_pos h]
    · intro h
      by_cases hf : (unitDiags fs reg).any isFatal = true
      · exact hf
      · exfalso
        unfold transform at h
        rw [if_neg hf] at h
        exact absurd h (by simp)
  · intro h
    unfold transform
    rw [if_neg (by rw [h]; exact Bool.false_ne_true)]
  · intro d
    cases d <;> simp [isFatal]

/-- C9 witness: a unit holding one well-formed ADT declaration produces
no fatal diagnostic, so the pass succeeds with an empty warning list. -/
theorem c9_all_or_nothing_witness :
    transform [Form.adtDecl "NatT" [("Zero", 0), ("Succ", 1)]] [] =
      .ok ([Form.compiledDecl natSpec], [natSpec], []) := by
  exact (c9_all_or_nothing [Form.adtDecl "NatT" [("Zero", 0), ("Succ", 1)]] []).2.1 rfl

theorem registerDecls_no_decls (r : Registry) (l : List Form)
    (h : ∀ f ∈ l, ∀ n cs, f ≠ Form.adtDecl n cs) :
    registerDecls r l = (r, []) := by
  induction l generalizing r with
  | nil => rfl
  | cons f rest ih =>
    cases f
    case adtDecl n cs => exact absurd rfl (h _ (List.mem_cons_self _ _) n cs)
    all_goals exact ih r (fun f2 hf => h f2 (List.mem_cons_of_mem _ hf))

theorem compileForm_inert (r0 r : Registry) (f : Form)
    (h : ∀ d ∈ (compileForm r0 f).2, isFatal d = false) :
    compileForm r ((compileForm r0 f).1) = ((compileForm r0 f).1, []) ∧
    (∀ n cs, (compileForm r0 f).1 ≠ Form.adtDecl n cs) := by
  cases f with
  | adtDecl n cs => exact ⟨rfl, fun n2 cs2 => by simp [compileForm]⟩
  | matchForm tn cls =>
    cases hl : lookupSpec r0 tn with
    | some spec =>
      have h1 : compileForm r0 (.matchForm tn cls) =
          (.compiledMatch tn cls, compileMatch spec cls) := by
        simp [compileForm, hl]
      rw [h1]
      exact ⟨rfl, by simp⟩
    | none =>
      have h1 : compileForm r0 (.matchForm tn cls) =
          (.matchForm tn cls, [Diag.UnknownConstructorReference]) := by
        simp [compileForm, hl]
      rw [h1] at h
      have h2 := h Diag.UnknownConstructorReference (by simp)
      simp [isFatal] at h2
  | funForm f0 => exact ⟨rfl, by simp [compileForm]⟩
  | hostForm => exact ⟨rfl, by simp [compileForm]⟩
  | compiledDecl s => exact ⟨rfl, by simp [compileForm]⟩
  | compiledMatch tn cls => exact ⟨rfl, by simp [compileForm]⟩
  | compiledFun f0 => exact ⟨rfl, by simp [compileForm]⟩

theorem flatten_nil_of_all_nil {α : Type} (l : List (List α))
    (h : ∀ x ∈ l, x = []) : l.flatten = [] := by
  induction l with
  | nil => rfl
  | cons x rest ih =>
    rw [List.flatten_cons, h x (List.mem_cons_self _ _),
      ih (fun y hy => h y (List.mem_cons_of_mem _ hy))]
    rfl

theorem map_id_of_mem_eq {α : Type} (l : List α) (g : α → α)
    (h : ∀ x ∈ l, g x = x) : l.map g = l := by
  induction l with
  | nil => rfl
  | cons x rest ih =>
    rw [List.map_cons, h x (List.mem_cons_self _ _),
      ih (fun y hy => h y (List.mem_cons_of_mem _ hy))]

/-- C10: the transform pass is deterministic — two runs on the same
tree and registry state give the same result — and idempotent: running
the pass again on a successful run's output tree and registry returns
that same tree and registry, with no further diagnostics. -/
theorem c10_deterministic_idempotent (fs : List Form) (reg : Registry)
    (fs2 : List Form) (reg2 : Registry) (ws : List Diag)
    (hok : transform fs reg = .ok (fs2, reg2, ws)) :
    (∀ r1 r2, transform fs reg = r1 → transform fs reg = r2 → r1 = r2) ∧
    transform fs2 reg2 = .ok (fs2, reg2, []) := by
  refine ⟨fun r1 r2 h1 h2 => by rw [← h1, ← h2], ?_⟩
  have hT := hok
  unfold transform at hT
  by_cases hfat : (unitDiags fs reg).any isFatal = true
  · rw [if_pos hfat] at hT
    simp at hT
  · rw [if_neg hfat] at hT
    simp only [Except.ok.injEq, Prod.mk.injEq] at hT
    obtain ⟨hfs2, hreg2, hws⟩ := hT
    have hall : ∀ d ∈ unitDiags fs reg, isFatal d = false := by
      intro d hd
      cases hfd : isFatal d with
      | false => rfl
      | true => exact absurd (List.any_eq_true.mpr ⟨d, hd, hfd⟩) hfat
    have hform : ∀ f ∈ fs, ∀ d ∈ (compileForm (registerDecls reg fs).1 f).2,
        isFatal d = false := by
      intro f hf d hd
      refine hall d ?_
      unfold unitDiags
      refine List.mem_append.mpr (Or.inr ?_)
      exact List.mem_flatten.mpr ⟨_, List.mem_map_of_mem _ hf, hd⟩
    subst hfs2
    subst hreg2
    set r1 := (registerDecls reg fs).1 with hr1
    set g : Form → Form := fun f => (compileForm r1 f).1 with hg
    have hinert : ∀ f ∈ fs,
        compileForm r1 (g f) = (g f, []) ∧ (∀ n cs, g f ≠ Form.adtDecl n cs) :=
      fun f hf => compileForm_inert r1 r1 f (hform f hf)
    have hreg : registerDecls r1 (fs.map g) = (r1, []) := by
      refine registerDecls_no_decls r1 _ ?_
      intro f2 hf2 n cs
      obtain ⟨f0, hf0, rfl⟩ := List.mem_map.mp hf2
      exact (hinert f0 hf0).2 n cs
    have hcomp : ∀ f2 ∈ fs.map g, compileForm r1 f2 = (f2, []) := by
      intro f2 hf2
      obtain ⟨f0, hf0, rfl⟩ := List.mem_map.mp hf2
      exact (hinert f0 hf0).1
    have hud : unitDiags (fs.map g) r1 = [] := by
      unfold unitDiags
      rw [hreg]
      refine List.append_eq_nil.mpr ⟨rfl, ?_⟩
      refine flatten_nil_of_all_nil _ ?_
      intro x hx
      obtain ⟨f2, hf2, rfl⟩ := List.mem_map.mp hx
      rw [hcomp f2 hf2]
    unfold transform
    rw [hud]
    rw [if_neg (by simp)]
    rw [hreg]
    simp only [List.filter_nil]
    rw [map_id_of_mem_eq (fs.map g) _ (fun f2 hf2 => by rw [hcomp f2 hf2])]

/-- C10 witness: re-running the pass on the compiled output of a unit
with one ADT declaration returns the output unchanged. -/
theorem c10_deterministic_idempotent_witness :
    transform [Form.compiledDecl natSpec] [natSpec] =
      .ok ([Form.compiledDecl natSpec], [natSpec], []) := by
  exact (c10_deterministic_idempotent [Form.adtDecl "NatT" [("Zero", 0), ("Succ", 1)]]
    [] [Form.compiledDecl natSpec] [natSpec] [] rfl).2

end FunPy
